import Mathlib

/-!
Shallow embedding of `ding/reward_model/trex_reward_model.py` (TrexRewardModel).

Randomness: every `np.random.*` draw in the source is modelled as an explicit
input (a field of a draw record or a list of naturals); validity predicates
record the range the library call guarantees (`np.random.randint(a, b)`
returns a value in `[a, b)`, `np.random.choice(n)` a value in `[0, n)`,
`np.random.choice(n, size=(2,), replace=False)` two distinct such values).
Neural-network and optimizer calls are abstracted as function parameters.
-/

set_option maxHeartbeats 1000000

namespace Trex

/-- Helper for `takeEvery`: `c` counts down to the next kept element. -/
def takeEveryAux (s : Nat) (c : Nat) : List α → List α
  | [] => []
  | x :: xs => if c = 0 then x :: takeEveryAux s (s - 1) xs else takeEveryAux s (c - 1) xs

/-- `l[::s]` for positive step `s`: the elements at indices 0, s, 2s, …. -/
def takeEvery (s : Nat) (l : List α) : List α :=
  takeEveryAux s 0 l

/-- Python slice `l[a:b:s]` for `0 ≤ a`, `0 ≤ b`, `0 < s` (out-of-range
bounds clamp, as in Python). -/
def pySlice (l : List α) (a b s : Nat) : List α :=
  takeEvery s ((l.take b).drop a)

/-- Python slice `l[a::s]` (no stop bound). -/
def pySliceFrom (l : List α) (a s : Nat) : List α :=
  takeEvery s (l.drop a)

theorem length_takeEveryAux_two (l : List α) :
    (takeEveryAux 2 0 l).length = (l.length + 1) / 2 ∧
    (takeEveryAux 2 1 l).length = l.length / 2 := by
  induction l with
  | nil => simp [takeEveryAux]
  | cons x xs ih => simp [takeEveryAux, ih.1, ih.2]; omega

theorem length_takeEvery_two (l : List α) :
    (takeEvery 2 l).length = (l.length + 1) / 2 :=
  (length_takeEveryAux_two l).1

theorem length_pySlice_two (l : List α) (a b : Nat) :
    (pySlice l a b 2).length = (min b l.length - a + 1) / 2 := by
  simp [pySlice, length_takeEvery_two]

/-- A trajectory is a list of observation frames. -/
abbrev Traj (α : Type) := List α

/-- `self.pre_expert_data`: bins (ordered by rank) of trajectories. -/
abbrev Demos (α : Type) := List (List (Traj α))

/-- `self.pre_expert_data[b][t]` (total version; validity predicates keep the
indices in range). -/
def demoAt (data : Demos α) (b t : Nat) : Traj α :=
  (data.getD b []).getD t []

/-- `demo_lengths`, flattened: length of every trajectory in every bin. -/
def demoLengths (data : Demos α) : List Nat :=
  (data.map (fun bin => bin.map List.length)).flatten

/-- `np.min(demo_lengths)` (0 on empty data, unreachable under the
`num_bins >= 2` assertion). -/
def minDemoLength (data : Demos α) : Nat :=
  match demoLengths data with
  | [] => 0
  | x :: xs => xs.foldl min x

/-- `max_snippet_length = min(np.min(demo_lengths), max_snippet_length)`. -/
def clampedMaxSnippet (data : Demos α) (maxLen : Nat) : Nat :=
  min (minDemoLength data) maxLen

/-- The random draws consumed by one iteration of the full-trajectory loop. -/
structure TrajDraw where
  bi : Nat
  bj : Nat
  ti : Nat
  tj : Nat
  si : Nat
  sj : Nat
  step : Nat
  deriving Repr, DecidableEq

/-- One full-trajectory pair: `traj_i = data[bi][ti][si::step]`,
`traj_j = data[bj][tj][sj::step]`, `label = int(bi <= bj)`. -/
def makeFullPair (data : Demos α) (d : TrajDraw) : (Traj α × Traj α) × Nat :=
  let traj_i := pySliceFrom (demoAt data d.bi d.ti) d.si d.step
  let traj_j := pySliceFrom (demoAt data d.bj d.tj) d.sj d.step
  ((traj_i, traj_j), if d.bi ≤ d.bj then 1 else 0)

/-- The random draws consumed by one iteration of the snippet loop.
`fst` is the first start drawn (for the lower-ranked trajectory), `snd` the
second (for the higher-ranked one). -/
structure SnipDraw where
  bi : Nat
  bj : Nat
  ti : Nat
  tj : Nat
  len : Nat
  fst : Nat
  snd : Nat
  deriving Repr, DecidableEq

/-- `(ti_start, tj_start)`: if `bi < bj` the first draw is `ti_start`,
otherwise the first draw is `tj_start`. -/
def snipStarts (d : SnipDraw) : Nat × Nat :=
  if d.bi < d.bj then (d.fst, d.snd) else (d.snd, d.fst)

/-- `min_length = min(len(data[bi][ti]), len(data[bj][tj]))`. -/
def snipMinLength (data : Demos α) (d : SnipDraw) : Nat :=
  min (demoAt data d.bi d.ti).length (demoAt data d.bj d.tj).length

/-- One snippet pair:
`traj_i = data[bi][ti][ti_start : ti_start + len : 2]` (and likewise `traj_j`),
`label = int(bi <= bj)`. -/
def makeSnippet (data : Demos α) (d : SnipDraw) : (Traj α × Traj α) × Nat :=
  let st := snipStarts d
  let traj_i := pySlice (demoAt data d.bi d.ti) st.1 (st.1 + d.len) 2
  let traj_j := pySlice (demoAt data d.bj d.tj) st.2 (st.2 + d.len) 2
  ((traj_i, traj_j), if d.bi ≤ d.bj then 1 else 0)

/-- `create_training_data`: the full-trajectory loop runs over `tds`
(`num_trajs` iterations), then the snippet loop over `sds` (`num_snippets`
iterations); each iteration appends one pair to `training_obs` and one label
to `training_labels`, in lockstep, so the two parallel lists are the two
projections of the list of generated (pair, label) couples. -/
def createTrainingData (data : Demos α) (tds : List TrajDraw) (sds : List SnipDraw) :
    List (Traj α × Traj α) × List Nat :=
  let pairs := tds.map (makeFullPair data) ++ sds.map (makeSnippet data)
  (pairs.map Prod.fst, pairs.map Prod.snd)

/-- The ranges `np.random` guarantees for the components of a snippet draw:
`bi, bj` distinct bins, `ti, tj` trajectory indices,
`len` from `randint(min_snippet_length, clamped max)`,
the first start from `randint(min_length - len + 1)` and the second from
`randint(first, len(higher demo) - len + 1)`. -/
def SnipDrawValid (data : Demos α) (minLen maxLen : Nat) (d : SnipDraw) : Prop :=
  d.bi < data.length ∧ d.bj < data.length ∧ d.bi ≠ d.bj ∧
  d.ti < (data.getD d.bi []).length ∧ d.tj < (data.getD d.bj []).length ∧
  minLen ≤ d.len ∧ d.len < clampedMaxSnippet data maxLen ∧
  d.fst < snipMinLength data d - d.len + 1 ∧
  d.fst ≤ d.snd ∧
  d.snd < (if d.bi < d.bj then (demoAt data d.bj d.tj).length
           else (demoAt data d.bi d.ti).length) - d.len + 1

instance (data : Demos α) (minLen maxLen : Nat) (d : SnipDraw) :
    Decidable (SnipDrawValid data minLen maxLen d) := by
  unfold SnipDrawValid
  infer_instance

/-- C1: for every training pair generated by `create_training_data` (both
full-trajectory pairs and snippet pairs), the stored label equals 1 iff the
bin index of the first trajectory is ≤ the bin index of the second, and the
label is always 0 or 1. -/
theorem label_iff_bin_le (data : Demos α) (tds : List TrajDraw) (sds : List SnipDraw) :
    (createTrainingData data tds sds).2
      = tds.map (fun d => (makeFullPair data d).2)
        ++ sds.map (fun d => (makeSnippet data d).2) ∧
    (∀ d : TrajDraw, (((makeFullPair data d).2 = 1) ↔ d.bi ≤ d.bj) ∧
      ((makeFullPair data d).2 = 0 ∨ (makeFullPair data d).2 = 1)) ∧
    (∀ d : SnipDraw, (((makeSnippet data d).2 = 1) ↔ d.bi ≤ d.bj) ∧
      ((makeSnippet data d).2 = 0 ∨ (makeSnippet data d).2 = 1)) := by
  refine ⟨by simp [createTrainingData, Function.comp_def], ?_, ?_⟩
  · intro d
    by_cases h : d.bi ≤ d.bj <;> simp [makeFullPair, h]
  · intro d
    by_cases h : d.bi ≤ d.bj <;> simp [makeSnippet, h]

theorem foldl_min_le (xs : List Nat) (x : Nat) :
    ∀ y, (y = x ∨ y ∈ xs) → xs.foldl min x ≤ y := by
  induction xs generalizing x with
  | nil =>
    intro y h
    rcases h with rfl | h
    · simp
    · simp at h
  | cons z zs ih =>
    intro y h
    simp only [List.foldl_cons]
    have hx : zs.foldl min (min x z) ≤ min x z := ih (min x z) (min x z) (Or.inl rfl)
    rcases h with rfl | h
    · exact le_trans hx (min_le_left _ _)
    · rcases List.mem_cons.1 h with rfl | h2
      · exact le_trans hx (min_le_right _ _)
      · exact ih (min x z) y (Or.inr h2)

theorem minDemoLength_le_mem (data : Demos α) {n : Nat} (h : n ∈ demoLengths data) :
    minDemoLength data ≤ n := by
  unfold minDemoLength
  cases hd : demoLengths data with
  | nil => rw [hd] at h; simp at h
  | cons x xs =>
    rw [hd] at h
    exact foldl_min_le xs x n (by
      rcases List.mem_cons.1 h with rfl | h2
      exacts [Or.inl rfl, Or.inr h2])

theorem length_demoAt_mem (data : Demos α) (b t : Nat) (hb : b < data.length)
    (ht : t < (data.getD b []).length) :
    (demoAt data b t).length ∈ demoLengths data := by
  unfold demoAt demoLengths
  rw [List.mem_flatten]
  refine ⟨(data.getD b []).map List.length, ?_, ?_⟩
  · rw [List.mem_map]
    refine ⟨data.getD b [], ?_, rfl⟩
    rw [List.getD_eq_getElem _ _ hb]
    exact List.getElem_mem hb
  · rw [List.mem_map]
    refine ⟨(data.getD b []).getD t [], ?_, rfl⟩
    rw [List.getD_eq_getElem _ _ ht]
    exact List.getElem_mem ht

theorem minDemoLength_le_demoAt (data : Demos α) (b t : Nat) (hb : b < data.length)
    (ht : t < (data.getD b []).length) :
    minDemoLength data ≤ (demoAt data b t).length :=
  minDemoLength_le_mem data (length_demoAt_mem data b t hb ht)

theorem snip_starts_le (data : Demos α) (minLen maxLen : Nat) (d : SnipDraw)
    (h : SnipDrawValid data minLen maxLen d) :
    (snipStarts d).1 + d.len ≤ (demoAt data d.bi d.ti).length ∧
    (snipStarts d).2 + d.len ≤ (demoAt data d.bj d.tj).length := by
  obtain ⟨hbi, hbj, hne, hti, htj, hmin, hmax, hfst, hfs, hsnd⟩ := h
  have hli : minDemoLength data ≤ (demoAt data d.bi d.ti).length :=
    minDemoLength_le_demoAt data d.bi d.ti hbi hti
  have hlj : minDemoLength data ≤ (demoAt data d.bj d.tj).length :=
    minDemoLength_le_demoAt data d.bj d.tj hbj htj
  have hlen : d.len < minDemoLength data :=
    lt_of_lt_of_le hmax (min_le_left _ _)
  unfold snipMinLength at hfst
  unfold snipStarts
  by_cases hb : d.bi < d.bj <;> simp only [hb, if_true, if_false, reduceIte] at hsnd ⊢ <;> omega

/-- C4: for every snippet pair, the two down-sampled snippets have equal
length, and the snippet from the higher-ranked (later-bin) trajectory starts
no earlier than the snippet from the lower-ranked trajectory. -/
theorem snippet_pair_invariant (data : Demos α) (minLen maxLen : Nat) (d : SnipDraw)
    (h : SnipDrawValid data minLen maxLen d) :
    (makeSnippet data d).1.1.length = (makeSnippet data d).1.2.length ∧
    (if d.bi < d.bj then (snipStarts d).1 ≤ (snipStarts d).2
     else (snipStarts d).2 ≤ (snipStarts d).1) := by
  obtain ⟨h1, h2⟩ := snip_starts_le data minLen maxLen d h
  constructor
  · simp only [makeSnippet, length_pySlice_two]
    omega
  · obtain ⟨_, _, _, _, _, _, _, _, hfs, _⟩ := h
    unfold snipStarts
    by_cases hb : d.bi < d.bj <;> simp [hb, hfs]

theorem snippet_pair_invariant_witness :
    SnipDrawValid [[List.range 6], [List.range 8]] 2 5 ⟨0, 1, 0, 0, 3, 1, 2⟩ ∧
    ((makeSnippet [[List.range 6], [List.range 8]] ⟨0, 1, 0, 0, 3, 1, 2⟩).1.1.length
      = (makeSnippet [[List.range 6], [List.range 8]] ⟨0, 1, 0, 0, 3, 1, 2⟩).1.2.length ∧
     (if (0 : Nat) < 1 then (snipStarts ⟨0, 1, 0, 0, 3, 1, 2⟩).1 ≤ (snipStarts ⟨0, 1, 0, 0, 3, 1, 2⟩).2
      else (snipStarts ⟨0, 1, 0, 0, 3, 1, 2⟩).2 ≤ (snipStarts ⟨0, 1, 0, 0, 3, 1, 2⟩).1)) :=
  ⟨by decide, snippet_pair_invariant [[List.range 6], [List.range 8]] 2 5 _ (by decide)⟩

/-- The part of a snippet draw that precedes the two start draws: distinct
in-range bins, in-range trajectory indices, and
`len` from `randint(min_snippet_length, clamped max)`. -/
def SnipChoiceValid (data : Demos α) (minLen maxLen : Nat) (d : SnipDraw) : Prop :=
  d.bi < data.length ∧ d.bj < data.length ∧ d.bi ≠ d.bj ∧
  d.ti < (data.getD d.bi []).length ∧ d.tj < (data.getD d.bj []).length ∧
  minLen ≤ d.len ∧ d.len < clampedMaxSnippet data maxLen

instance (data : Demos α) (minLen maxLen : Nat) (d : SnipDraw) :
    Decidable (SnipChoiceValid data minLen maxLen d) := by
  unfold SnipChoiceValid
  infer_instance

/-- C9: with ≥ 2 bins, every bin non-empty and
`min_snippet_length < clamped max_snippet_length`, every snippet-start
`randint` range is non-empty and the snippet slices are fully in bounds.
`d.len ≤ snipMinLength` says the first range `[0, min_length - len + 1)` is
non-empty, `d.fst + d.len ≤ higher length` says the second range
`[fst, higher_length - len + 1)` is non-empty, and the window
`demo[start : start + len]` has exactly `len` elements before the `::2`
down-sampling. -/
theorem snippet_sampling_safe (data : Demos α) (minLen maxLen : Nat) (d : SnipDraw)
    (hbins : 2 ≤ data.length) (hne : ∀ bin ∈ data, bin ≠ [])
    (hlt : minLen < clampedMaxSnippet data maxLen)
    (hc : SnipChoiceValid data minLen maxLen d) :
    d.len ≤ snipMinLength data d ∧
    (d.fst < snipMinLength data d - d.len + 1 →
      d.fst + d.len ≤ (if d.bi < d.bj then (demoAt data d.bj d.tj).length
                       else (demoAt data d.bi d.ti).length)) ∧
    (SnipDrawValid data minLen maxLen d →
      (snipStarts d).1 + d.len ≤ (demoAt data d.bi d.ti).length ∧
      (snipStarts d).2 + d.len ≤ (demoAt data d.bj d.tj).length ∧
      (((demoAt data d.bi d.ti).take ((snipStarts d).1 + d.len)).drop
          (snipStarts d).1).length = d.len ∧
      (((demoAt data d.bj d.tj).take ((snipStarts d).2 + d.len)).drop
          (snipStarts d).2).length = d.len) := by
  obtain ⟨hbi, hbj, hnij, hti, htj, hmin, hmax⟩ := hc
  have hli : minDemoLength data ≤ (demoAt data d.bi d.ti).length :=
    minDemoLength_le_demoAt data d.bi d.ti hbi hti
  have hlj : minDemoLength data ≤ (demoAt data d.bj d.tj).length :=
    minDemoLength_le_demoAt data d.bj d.tj hbj htj
  have hlen : d.len < minDemoLength data :=
    lt_of_lt_of_le hmax (min_le_left _ _)
  refine ⟨?_, ?_, ?_⟩
  · unfold snipMinLength
    omega
  · intro hfst
    unfold snipMinLength at hfst
    by_cases hb : d.bi < d.bj <;> simp only [hb, if_true, if_false, reduceIte] <;> omega
  · intro hv
    obtain ⟨h1, h2⟩ := snip_starts_le data minLen maxLen d hv
    refine ⟨h1, h2, ?_, ?_⟩ <;> simp only [List.length_drop, List.length_take] <;> omega

theorem snippet_sampling_safe_witness :
    (2 ≤ ([[List.range 6], [List.range 8]] : Demos Nat).length ∧
     (∀ bin ∈ ([[List.range 6], [List.range 8]] : Demos Nat), bin ≠ []) ∧
     2 < clampedMaxSnippet ([[List.range 6], [List.range 8]] : Demos Nat) 5 ∧
     SnipChoiceValid [[List.range 6], [List.range 8]] 2 5 ⟨0, 1, 0, 0, 3, 1, 2⟩) ∧
    ((⟨0, 1, 0, 0, 3, 1, 2⟩ : SnipDraw).len
        ≤ snipMinLength [[List.range 6], [List.range 8]] ⟨0, 1, 0, 0, 3, 1, 2⟩ ∧
     ((⟨0, 1, 0, 0, 3, 1, 2⟩ : SnipDraw).fst
          < snipMinLength [[List.range 6], [List.range 8]] ⟨0, 1, 0, 0, 3, 1, 2⟩
            - (⟨0, 1, 0, 0, 3, 1, 2⟩ : SnipDraw).len + 1 →
       (⟨0, 1, 0, 0, 3, 1, 2⟩ : SnipDraw).fst + (⟨0, 1, 0, 0, 3, 1, 2⟩ : SnipDraw).len
          ≤ (if (⟨0, 1, 0, 0, 3, 1, 2⟩ : SnipDraw).bi < (⟨0, 1, 0, 0, 3, 1, 2⟩ : SnipDraw).bj
             then (demoAt [[List.range 6], [List.range 8]] 1 0).length
             else (demoAt [[List.range 6], [List.range 8]] 0 0).length)) ∧
     (SnipDrawValid [[List.range 6], [List.range 8]] 2 5 ⟨0, 1, 0, 0, 3, 1, 2⟩ →
       (snipStarts ⟨0, 1, 0, 0, 3, 1, 2⟩).1 + 3
          ≤ (demoAt [[List.range 6], [List.range 8]] 0 0).length ∧
       (snipStarts ⟨0, 1, 0, 0, 3, 1, 2⟩).2 + 3
          ≤ (demoAt [[List.range 6], [List.range 8]] 1 0).length ∧
       (((demoAt [[List.range 6], [List.range 8]] 0 0).take
            ((snipStarts ⟨0, 1, 0, 0, 3, 1, 2⟩).1 + 3)).drop
          (snipStarts ⟨0, 1, 0, 0, 3, 1, 2⟩).1).length = 3 ∧
       (((demoAt [[List.range 6], [List.range 8]] 1 0).take
            ((snipStarts ⟨0, 1, 0, 0, 3, 1, 2⟩).2 + 3)).drop
          (snipStarts ⟨0, 1, 0, 0, 3, 1, 2⟩).2).length = 3)) :=
  ⟨⟨by decide, by decide, by decide, by decide⟩,
   snippet_sampling_safe [[List.range 6], [List.range 8]] 2 5 ⟨0, 1, 0, 0, 3, 1, 2⟩
     (by decide) (by decide) (by decide) (by decide)⟩

/-- The scenario data: 3 bins, one trajectory each, of lengths 50, 60, 70. -/
def demoData8 : Demos Nat := [[List.range 50], [List.range 60], [List.range 70]]

/-- One concrete run of the snippet loop for the scenario: 10 draws, each in
the ranges `np.random` guarantees for `demoData8` with
`min_snippet_length = 5` and clamped `max_snippet_length = 20`. -/
def demoDraws8 : List SnipDraw :=
  [⟨0, 1, 0, 0, 5, 0, 0⟩, ⟨1, 0, 0, 0, 6, 2, 3⟩, ⟨0, 2, 0, 0, 10, 1, 4⟩,
   ⟨2, 1, 0, 0, 19, 0, 0⟩, ⟨1, 2, 0, 0, 7, 5, 6⟩, ⟨2, 0, 0, 0, 8, 0, 1⟩,
   ⟨0, 1, 0, 0, 12, 3, 3⟩, ⟨1, 0, 0, 0, 15, 0, 2⟩, ⟨0, 2, 0, 0, 9, 2, 2⟩,
   ⟨2, 1, 0, 0, 11, 4, 7⟩]

/-- C8 counterexample: on a valid run of the scenario (all 10 draws in range),
the training set does contain 10 pairs, but the stored snippets are
down-sampled by taking every second frame, so a drawn length of 5 yields
stored trajectories of length 3, which does not lie in `[5, 20)`. -/
theorem scenario_length_counterexample :
    (∀ d ∈ demoDraws8, SnipDrawValid demoData8 5 20 d) ∧
    (createTrainingData demoData8 [] demoDraws8).1.length = 10 ∧
    ¬ (∀ p ∈ (createTrainingData demoData8 [] demoDraws8).1,
        5 ≤ p.1.length ∧ p.1.length < 20) := by
  decide

/-- C8 amended: with the scenario data (3 bins of lengths 50, 60, 70),
`num_trajs = 0`, `num_snippets = 10`, `min_snippet_length = 5`,
`max_snippet_length = 20` and any valid run of the random draws, the training
set has exactly 10 pairs; each pair consists of two trajectories of equal
length `(L + 1) / 2 ∈ [3, 10]` for a drawn snippet length `L ∈ [5, 20)`, and
each label is in {0, 1}, consistent with the bin order. -/
theorem scenario_training_set (sds : List SnipDraw)
    (hlen : sds.length = 10)
    (hv : ∀ d ∈ sds, SnipDrawValid demoData8 5 20 d) :
    (createTrainingData demoData8 [] sds).1
      = sds.map (fun d => (makeSnippet demoData8 d).1) ∧
    (createTrainingData demoData8 [] sds).2
      = sds.map (fun d => (makeSnippet demoData8 d).2) ∧
    (createTrainingData demoData8 [] sds).1.length = 10 ∧
    (createTrainingData demoData8 [] sds).2.length = 10 ∧
    ∀ d ∈ sds,
      (makeSnippet demoData8 d).1.1.length = (makeSnippet demoData8 d).1.2.length ∧
      (makeSnippet demoData8 d).1.1.length = (d.len + 1) / 2 ∧
      5 ≤ d.len ∧ d.len < 20 ∧
      3 ≤ (makeSnippet demoData8 d).1.1.length ∧
      (makeSnippet demoData8 d).1.1.length ≤ 10 ∧
      (makeSnippet demoData8 d).2 = (if d.bi ≤ d.bj then 1 else 0) := by
  refine ⟨by simp [createTrainingData, Function.comp_def],
          by simp [createTrainingData, Function.comp_def],
          by simp [createTrainingData, hlen],
          by simp [createTrainingData, hlen], ?_⟩
  intro d hd
  have h := hv d hd
  obtain ⟨h1, h2⟩ := snip_starts_le demoData8 5 20 d h
  obtain ⟨_, _, _, _, _, hmin, hmax, _, _, _⟩ := h
  have hclamp : clampedMaxSnippet demoData8 20 = 20 := by decide
  rw [hclamp] at hmax
  refine ⟨?_, ?_, hmin, hmax, ?_, ?_, rfl⟩ <;>
    simp only [makeSnippet, length_pySlice_two] <;> omega

theorem scenario_training_set_witness :
    (demoDraws8.length = 10 ∧ ∀ d ∈ demoDraws8, SnipDrawValid demoData8 5 20 d) ∧
    ((createTrainingData demoData8 [] demoDraws8).1
      = demoDraws8.map (fun d => (makeSnippet demoData8 d).1) ∧
    (createTrainingData demoData8 [] demoDraws8).2
      = demoDraws8.map (fun d => (makeSnippet demoData8 d).2) ∧
    (createTrainingData demoData8 [] demoDraws8).1.length = 10 ∧
    (createTrainingData demoData8 [] demoDraws8).2.length = 10 ∧
    ∀ d ∈ demoDraws8,
      (makeSnippet demoData8 d).1.1.length = (makeSnippet demoData8 d).1.2.length ∧
      (makeSnippet demoData8 d).1.1.length = (d.len + 1) / 2 ∧
      5 ≤ d.len ∧ d.len < 20 ∧
      3 ≤ (makeSnippet demoData8 d).1.1.length ∧
      (makeSnippet demoData8 d).1.1.length ≤ 10 ∧
      (makeSnippet demoData8 d).2 = (if d.bi ≤ d.bj then 1 else 0)) :=
  ⟨⟨by decide, by decide⟩, scenario_training_set demoDraws8 (by decide) (by decide)⟩

/-- `_train`: the source loops `for i in range(len(training_labels))` and the
loop body ends in `return cum_loss`, so the body runs at most once; on an
empty set the loop is skipped and the function falls through (returns `None`).
The two parallel argument lists (`training_obs`, `training_labels`, equal
length — they are the unzipped components of the shuffled couples) are
modelled as one list of (pair, label) couples; `step` abstracts one gradient
update (`reward_model.learn`, `opt.zero_grad`, `loss.backward`, `opt.step`),
returning the updated model/optimizer state and the scalar loss. -/
def trainOnePass {M P : Type} (step : M → P → Nat → M × ℚ) (m : M)
    (data : List (P × Nat)) : Option ℚ × M :=
  match data with
  | [] => (none, m)
  | (p, l) :: _ =>
      let r := step m p l
      let cum_loss : ℚ := 0 + r.2
      (some cum_loss, r.1)

/-- C3: on every non-empty training set, a single call to `_train` performs
exactly one gradient update, on only the first pair of its input, and returns
that single sample's loss; the rest of the set is ignored. -/
theorem train_pass_single_update {M P : Type} (step : M → P → Nat → M × ℚ)
    (m : M) (p : P) (l : Nat) (rest : List (P × Nat)) :
    trainOnePass step m ((p, l) :: rest) = (some (step m p l).2, (step m p l).1) ∧
    trainOnePass step m ((p, l) :: rest) = trainOnePass step m [(p, l)] := by
  constructor <;> simp [trainOnePass]

/-- `self.training_obs` and `self.training_labels`. -/
structure TrainState (P : Type) where
  training_obs : List P
  training_labels : List Nat
  deriving DecidableEq

/-- `clear_data(iter)`: the `hasattr` guard is the `Option`; a configured
period of 0 makes `iter % self.cfg.clear_buffer_per_iters` raise
ZeroDivisionError (second component, state unchanged since the exception
propagates before any `.clear()`). -/
def clear_data {P : Type} (clear_buffer_per_iters : Option Nat) (it : Nat)
    (st : TrainState P) : TrainState P × Option String :=
  match clear_buffer_per_iters with
  | none => (st, none)
  | some p =>
      if p = 0 then (st, some "ZeroDivisionError: integer division or modulo by zero")
      else if it % p = 0 then (⟨[], []⟩, none) else (st, none)

/-- C5: `clear_data(iteration)` empties both the training-pair and label
collections exactly when a (positive) clearing period is configured and
`iteration % period == 0`; otherwise (nonzero remainder, or no period
configured) it leaves both collections unchanged and raises nothing. -/
theorem clear_data_period {P : Type} (it : Nat) (st : TrainState P) :
    clear_data none it st = (st, none) ∧
    ∀ p : Nat, 0 < p →
      (it % p = 0 → clear_data (some p) it st = (⟨[], []⟩, none)) ∧
      (it % p ≠ 0 → clear_data (some p) it st = (st, none)) := by
  refine ⟨rfl, ?_⟩
  intro p hp
  constructor <;> intro h <;>
    simp [clear_data, h, Nat.pos_iff_ne_zero.mp hp]

theorem clear_data_period_witness :
    clear_data (P := Nat) none 3 ⟨[5], [1]⟩ = (⟨[5], [1]⟩, none) ∧
    ((0 : Nat) < 2 ∧ 4 % 2 = 0 ∧
      clear_data (P := Nat) (some 2) 4 ⟨[5], [1]⟩ = (⟨[], []⟩, none)) ∧
    ((0 : Nat) < 2 ∧ 5 % 2 ≠ 0 ∧
      clear_data (P := Nat) (some 2) 5 ⟨[5], [1]⟩ = (⟨[5], [1]⟩, none)) :=
  ⟨(clear_data_period 3 ⟨[5], [1]⟩).1,
   ⟨by decide, by decide, ((clear_data_period 4 ⟨[5], [1]⟩).2 2 (by decide)).1 (by decide)⟩,
   ⟨by decide, by decide, ((clear_data_period 5 ⟨[5], [1]⟩).2 2 (by decide)).2 (by decide)⟩⟩

/-- C10: if the configuration sets `clear_buffer_per_iters` to 0, then for
every iteration value `clear_data` raises ZeroDivisionError from the modulo
operation; it neither clears the collections nor returns as a no-op. -/
theorem clear_data_zero_period {P : Type} (it : Nat) (st : TrainState P) :
    clear_data (some 0) it st
      = (st, some "ZeroDivisionError: integer division or modulo by zero") ∧
    clear_data (some 0) it st ≠ (st, none) ∧
    clear_data (some 0) it st ≠ ((⟨[], []⟩ : TrainState P), none) := by
  refine ⟨rfl, ?_, ?_⟩ <;> simp [clear_data]

/-- `np.random.shuffle` applied to `training_data` (external library call):
modelled as a draw-driven permutation procedure — each round extracts the
element at the drawn index (taken mod the current length, so every draw list
describes a run) and emits it, then continues on the remainder. -/
def shuffleDraws : List Nat → List α → List α
  | [], l => l
  | _ :: _, [] => []
  | j :: rest, x :: xs =>
      let l := x :: xs
      let idx := j % l.length
      l.getD idx x :: shuffleDraws rest (l.eraseIdx idx)

theorem getD_cons_eraseIdx_perm (l : List α) (j : Nat) (hj : j < l.length) (d : α) :
    (l.getD j d :: l.eraseIdx j).Perm l := by
  induction l generalizing j with
  | nil => simp at hj
  | cons x xs ih =>
    cases j with
    | zero => simp [List.eraseIdx]
    | succ n =>
      have hn : n < xs.length := by simpa using hj
      have h1 : (x :: xs).getD (n + 1) d = xs.getD n d := by simp [List.getD]
      have h2 : (x :: xs).eraseIdx (n + 1) = x :: xs.eraseIdx n := rfl
      rw [h1, h2]
      exact (List.Perm.swap x (xs.getD n d) (xs.eraseIdx n)).trans ((ih n hn).cons x)

theorem shuffleDraws_perm (draws : List Nat) (l : List α) :
    (shuffleDraws draws l).Perm l := by
  induction draws generalizing l with
  | nil => simp [shuffleDraws]
  | cons j rest ih =>
    cases l with
    | nil => simp [shuffleDraws]
    | cons x xs =>
      have hj : j % (x :: xs).length < (x :: xs).length :=
        Nat.mod_lt _ (by simp)
      exact ((ih _).cons _).trans (getD_cons_eraseIdx_perm (x :: xs) _ hj x)

/-- C6: in `train`, `training_data = list(zip(training_obs, training_labels))`
is shuffled as a single list of couples and only unzipped afterwards: the
multiset of (trajectory-pair, label) couples after the shuffle equals the
multiset before it, and re-zipping the unzipped components reproduces exactly
the shuffled couples — no pair is ever matched with another pair's label. -/
theorem shuffle_preserves_pairing {P : Type} (obs : List P) (labels : List Nat)
    (draws : List Nat) :
    ((shuffleDraws draws (List.zip obs labels) : List (P × Nat)) : Multiset (P × Nat))
      = (List.zip obs labels : Multiset (P × Nat)) ∧
    List.zip (shuffleDraws draws (List.zip obs labels)).unzip.1
        (shuffleDraws draws (List.zip obs labels)).unzip.2
      = shuffleDraws draws (List.zip obs labels) :=
  ⟨Multiset.coe_eq_coe.mpr (shuffleDraws_perm draws _), List.zip_unzip _⟩

/-- `torch.max(outputs, 0)` on a 2-way logit pair: the index of the (first)
maximum, so the predicted label is 1 exactly when the second logit is
strictly larger. -/
def argmaxPred (o : ℚ × ℚ) : Nat := if o.1 < o.2 then 1 else 0

/-- `calc_accuracy`: `outputs` abstracts
`reward_network.get_outputs_abs_reward` (the 2-way logits of a pair); the two
parallel lists are traversed in lockstep (they have equal length by
construction of the training set); `num_correct / len(training_inputs)` is
Python float division and raises ZeroDivisionError on an empty training set. -/
def calc_accuracy {P : Type} (outputs : P → ℚ × ℚ) (training_inputs : List P)
    (training_outputs : List Nat) : Except String ℚ :=
  let num_correct : Nat :=
    ((training_inputs.zip training_outputs).filter
      (fun pl => argmaxPred (outputs pl.1) == pl.2)).length
  if training_inputs.length = 0 then
    Except.error "ZeroDivisionError: float division by zero"
  else
    Except.ok ((num_correct : ℚ) / (training_inputs.length : ℚ))

/-- C7 counterexample: on an empty training set, `calc_accuracy` raises
ZeroDivisionError instead of returning a value in [0, 1]. -/
theorem calc_accuracy_empty_raises :
    calc_accuracy (fun _ : Nat => ((0 : ℚ), (0 : ℚ))) [] []
      = Except.error "ZeroDivisionError: float division by zero" := rfl

/-- C7 amended: for every non-empty training set, `calc_accuracy` returns the
fraction of training pairs whose arg-max predicted label matches the stored
label, and every value it returns lies in the closed interval [0, 1]. -/
theorem calc_accuracy_fraction {P : Type} (outputs : P → ℚ × ℚ)
    (inputs : List P) (labels : List Nat) (h : inputs ≠ []) :
    calc_accuracy outputs inputs labels
      = Except.ok ((((inputs.zip labels).filter
          (fun pl => argmaxPred (outputs pl.1) == pl.2)).length : ℚ)
          / (inputs.length : ℚ)) ∧
    ∀ q, calc_accuracy outputs inputs labels = Except.ok q → 0 ≤ q ∧ q ≤ 1 := by
  have hn : inputs.length ≠ 0 := fun hh => h (List.length_eq_zero.mp hh)
  have h0 : (0 : ℚ) < (inputs.length : ℚ) := by
    exact_mod_cast Nat.pos_of_ne_zero hn
  constructor
  · simp [calc_accuracy, hn]
  · intro q hq
    simp only [calc_accuracy, hn, if_false, reduceIte, Except.ok.injEq] at hq
    have hle : ((inputs.zip labels).filter
        (fun pl => argmaxPred (outputs pl.1) == pl.2)).length ≤ inputs.length := by
      refine le_trans (List.length_filter_le _ _) ?_
      rw [List.length_zip]
      omega
    constructor
    · rw [← hq]
      exact div_nonneg (by positivity) (le_of_lt h0)
    · rw [← hq]
      rw [div_le_one h0]
      exact_mod_cast hle

theorem calc_accuracy_fraction_witness :
    ([7] : List Nat) ≠ [] ∧
    (calc_accuracy (fun _ : Nat => ((0 : ℚ), (1 : ℚ))) [7] [1]
      = Except.ok ((((([7] : List Nat).zip [1]).filter
          (fun pl => argmaxPred ((fun _ : Nat => ((0 : ℚ), (1 : ℚ))) pl.1) == pl.2)).length : ℚ)
          / (([7] : List Nat).length : ℚ)) ∧
     ∀ q, calc_accuracy (fun _ : Nat => ((0 : ℚ), (1 : ℚ))) [7] [1] = Except.ok q →
       0 ≤ q ∧ q ≤ 1) :=
  ⟨by simp, calc_accuracy_fraction (fun _ : Nat => ((0 : ℚ), (1 : ℚ))) [7] [1] (by simp)⟩

/-- One transition record of an `estimate` batch (the keys the method touches:
an observation and the reward it overwrites). -/
structure TransitionRec (O : Type) where
  obs : O
  reward : ℤ
  deriving DecidableEq, Inhabited

/-- Input batches are lists of references into a shared heap of records (the
replay buffer may alias them); a batch is the list of heap addresses. -/
abbrev Batch := List Nat

/-- Modelled from the spec: `reward_deepcopy` (defined in the base reward
model class, outside this excerpt) deep-copies the batch, so the returned
rows are fresh records — here, fresh heap addresses `heap.length, …` holding
copies of the referenced records. -/
def reward_deepcopy {O : Type} [Inhabited O] (heap : List (TransitionRec O))
    (batch : Batch) : List (TransitionRec O) × Batch :=
  (heap ++ batch.map (fun a => heap.getD a default), List.range' heap.length batch.length)

/-- `estimate(data)`: deep-copy the batch, run the model (`f` abstracts
`reward_model.forward` on the collected/stacked observations) to get one
scalar per row, then write each scalar into the copied row's reward field
(`item['reward'] = rew` over `zip(train_data_augmented, sum_rewards)`), and
return the augmented batch. Returns the final heap and the returned batch's
addresses. -/
def estimate {O : Type} [Inhabited O] (f : O → ℤ) (heap : List (TransitionRec O))
    (batch : Batch) : List (TransitionRec O) × Batch :=
  let copied := reward_deepcopy heap batch
  let heap1 := copied.1
  let sum_rewards := copied.2.map (fun a => f (heap1.getD a default).obs)
  let heap2 := (copied.2.zip sum_rewards).foldl
    (fun h pr => h.set pr.1 { h.getD pr.1 default with reward := pr.2 }) heap1
  (heap2, copied.2)

theorem getD_foldl_set_of_lt {O : Type} [Inhabited O] (ps : List (Nat × ℤ))
    (l : List (TransitionRec O)) (a n : Nat)
    (ha : a < n) (hps : ∀ p ∈ ps, n ≤ p.1) :
    ((ps.foldl (fun h pr => h.set pr.1 { h.getD pr.1 default with reward := pr.2 })
        l).getD a default)
      = l.getD a default := by
  induction ps generalizing l with
  | nil => rfl
  | cons q qs ih =>
    simp only [List.foldl_cons]
    rw [ih _ (fun p hp => hps p (List.mem_cons_of_mem q hp))]
    have hne : q.1 ≠ a := by
      have := hps q (List.mem_cons_self q qs)
      omega
    simp [List.getD, List.getElem?_set_ne hne]

/-- C2: `estimate(batch)` leaves every record referenced by the original
input batch unchanged in the heap (it mutates only the deep copy), and the
returned batch has the same length as the input batch. -/
theorem estimate_preserves_input {O : Type} [Inhabited O] (f : O → ℤ)
    (heap : List (TransitionRec O)) (batch : Batch)
    (hb : ∀ a ∈ batch, a < heap.length) :
    (∀ a ∈ batch, (estimate f heap batch).1.getD a default = heap.getD a default) ∧
    (estimate f heap batch).2.length = batch.length := by
  constructor
  · intro a ha
    simp only [estimate, reward_deepcopy]
    rw [getD_foldl_set_of_lt _ _ a heap.length (hb a ha) ?haddr]
    case haddr =>
      intro p hp
      have h1 := (List.of_mem_zip hp).1
      have := List.mem_range'_1.mp h1
      omega
    exact List.getD_append _ _ _ _ (hb a ha)
  · simp [estimate, reward_deepcopy]

theorem estimate_preserves_input_witness :
    (∀ a ∈ ([0, 1] : Batch), a < ([⟨1, 5⟩, ⟨2, 7⟩] : List (TransitionRec Nat)).length) ∧
    ((∀ a ∈ ([0, 1] : Batch),
        (estimate (fun o : Nat => (o : ℤ) * 2) [⟨1, 5⟩, ⟨2, 7⟩] [0, 1]).1.getD a default
          = ([⟨1, 5⟩, ⟨2, 7⟩] : List (TransitionRec Nat)).getD a default) ∧
     (estimate (fun o : Nat => (o : ℤ) * 2) [⟨1, 5⟩, ⟨2, 7⟩] [0, 1]).2.length
        = ([0, 1] : Batch).length) :=
  ⟨by decide,
   estimate_preserves_input (fun o : Nat => (o : ℤ) * 2) [⟨1, 5⟩, ⟨2, 7⟩] [0, 1] (by decide)⟩

end Trex
